import Mathlib

/-!
# Password management (`back/src/hashPass.js`)

A shallow embedding of the `PasswordManagement` class and of the collaborators
it calls (`Buffer` hex coding, `JSON`, `localStorage`, `crypto`), followed by
the properties proved about it.

* JavaScript strings are sequences of UTF-16 code units and are modelled as
  lists of natural numbers; buffers are lists of bytes.
* `crypto.pbkdf2` and `crypto.randomBytes` are not computed: the derivation is a
  function of its arguments carried by `Host`, and the bytes drawn by
  `randomBytes(8)` are an argument of the methods that draw them.
* A method call is described by the calls it makes on the collaborators
  (`Effect`) and by how it ends (`Completion`); a promise is described by the
  state it reaches once the `pbkdf2` callback has run.
-/

namespace HashPass

/-- A JavaScript string: its UTF-16 code units, each below `65536`. -/
abbrev JSString := List Nat

/-- The contents of a Node `Buffer`. -/
abbrev Bytes := List (Fin 256)

/-- The code units of a string literal of the source (all literals are ASCII). -/
def lit (s : String) : JSString := s.toList.map Char.toNat

/-- Exceptions and rejection reasons. `primitive n` stands for an error value
reported by a collaborator (`crypto.randomBytes`, `crypto.pbkdf2`, `Buffer`). -/
inductive JSError
  | SyntaxError
  | TypeError
  | primitive (code : Nat)
  deriving DecidableEq, Repr

/-! ## `Buffer` hex coding -/

/-- Lower-case hexadecimal digit of a nibble, as written by
`buf.toString("hex")`. -/
def hexDigit (n : Nat) : Nat := if n < 10 then 48 + n else 87 + n

/-- The library call `buf.toString("hex")`: two lower-case digits per byte. -/
def toStringHex : Bytes → JSString
  | [] => []
  | b :: bs => hexDigit (b.val / 16) :: hexDigit (b.val % 16) :: toStringHex bs

/-- Value of a hexadecimal digit, `none` for any other code unit. Digits are
`0-9`, `A-F` and `a-f`. -/
def unhex (c : Nat) : Option Nat :=
  if 48 ≤ c ∧ c ≤ 57 then some (c - 48)
  else if 65 ≤ c ∧ c ≤ 70 then some (c - 55)
  else if 97 ≤ c ∧ c ≤ 102 then some (c - 87)
  else none

/-- The library call `new Buffer(str, "hex")` on a string, as Node decodes it:
pairs of characters are read from the left, each code unit through its low
byte only (the decoder narrows it to 8 bits before looking the digit up);
decoding stops at the first pair that is not two hexadecimal digits, and a
trailing single character is dropped. -/
def fromHex : JSString → Bytes
  | a :: b :: rest =>
    match unhex (a % 256), unhex (b % 256) with
    | some hi, some lo => ⟨(hi * 16 + lo) % 256, Nat.mod_lt _ (by decide)⟩ :: fromHex rest
    | _, _ => []
  | _ => []

/-! ## JavaScript values and `JSON` -/

/-- The values `JSON.parse` can return, and `undefined`. A number carries the
exact decimal value of its literal, `± mantissa * 10 ^ exponent`. -/
inductive JSValue
  | undefined
  | null
  | bool (b : Bool)
  | number (negative : Bool) (mantissa : Nat) (exponent : Int)
  | string (s : JSString)
  | array (elements : List JSValue)
  | object (members : List (JSString × JSValue))

/-- Whether the decimal `mantissa * 10 ^ exponent` rounds (to nearest, ties to
even) to a non-zero double: it does unless it is at most `2 ^ (-1075)`. -/
def roundsToNonzero (mantissa : Nat) : Int → Bool
  | .ofNat _ => decide (mantissa ≠ 0)
  | .negSucc k => decide (10 ^ (k + 1) < mantissa * 2 ^ 1075)

/-- Truthiness, as tested by `if(pdata)`. -/
def toBoolean : JSValue → Bool
  | .undefined => false
  | .null => false
  | .bool b => b
  | .number _ m e => roundsToNonzero m e
  | .string s => !s.isEmpty
  | .array _ => true
  | .object _ => true

/-- Property read `pdata.hash` / `pdata.salt` on a truthy parsed value: an own
member of an object (the last one when the text repeated the name), otherwise
`undefined`, no prototype defining either name. -/
def JSValue.get (v : JSValue) (name : JSString) : JSValue :=
  match v with
  | .object members =>
    match members.reverse.find? (fun m => decide (m.1 = name)) with
    | some m => m.2
    | none => .undefined
  | _ => .undefined

namespace JSON

def isWhitespace (c : Nat) : Bool := c = 9 || c = 10 || c = 13 || c = 32

def skipWhitespace : JSString → JSString
  | [] => []
  | c :: cs => if isWhitespace c then skipWhitespace cs else c :: cs

/-- The code unit written `\uXXXX`. -/
def hex4 (a b c d : Nat) : Option Nat :=
  match unhex a, unhex b, unhex c, unhex d with
  | some a, some b, some c, some d => some (((a * 16 + b) * 16 + c) * 16 + d)
  | _, _, _, _ => none

/-- The single-character escapes `\" \\ \/ \b \f \n \r \t`. -/
def unescape (c : Nat) : Option Nat :=
  if c = 34 then some 34 else if c = 92 then some 92 else if c = 47 then some 47
  else if c = 98 then some 8 else if c = 102 then some 12 else if c = 110 then some 10
  else if c = 114 then some 13 else if c = 116 then some 9 else none

/-- A string literal after its opening quote: the decoded string and the text
after the closing quote. -/
def parseStringBody : JSString → Option (JSString × JSString)
  | [] => none
  | c :: rest =>
    if c = 34 then some ([], rest)
    else if c = 92 then
      match rest with
      | [] => none
      | e :: rest1 =>
        if e = 117 then
          match rest1 with
          | a :: b :: c :: d :: rest2 =>
            match hex4 a b c d, parseStringBody rest2 with
            | some u, some (s, r) => some (u :: s, r)
            | _, _ => none
          | _ => none
        else
          match unescape e, parseStringBody rest1 with
          | some u, some (s, r) => some (u :: s, r)
          | _, _ => none
    else if c < 32 then none
    else
      match parseStringBody rest with
      | some (s, r) => some (c :: s, r)
      | none => none

def isDigit (c : Nat) : Bool := decide (48 ≤ c) && decide (c ≤ 57)

/-- The longest run of decimal digits (their values) and the text after it. -/
def takeDigits : JSString → List Nat × JSString
  | [] => ([], [])
  | c :: cs =>
    if isDigit c then ((c - 48) :: (takeDigits cs).1, (takeDigits cs).2) else ([], c :: cs)

def digitsValue (ds : List Nat) : Nat := ds.foldl (fun acc d => acc * 10 + d) 0

/-- Integer part: `0`, or a non-zero digit followed by digits. -/
def parseInt : JSString → Option (List Nat × JSString)
  | [] => none
  | c :: cs =>
    if c = 48 then some ([0], cs)
    else if isDigit c then some (takeDigits (c :: cs))
    else none

/-- Optional fraction: `.` followed by at least one digit. -/
def parseFrac : JSString → List Nat × JSString
  | [] => ([], [])
  | c :: cs =>
    if c = 46 then
      match takeDigits cs with
      | ([], _) => ([], c :: cs)
      | (d :: ds, rest) => (d :: ds, rest)
    else ([], c :: cs)

def parseExpDigits (neg : Bool) (cs orig : JSString) : Int × JSString :=
  match takeDigits cs with
  | ([], _) => (0, orig)
  | (d :: ds, rest) =>
    (if neg then - (digitsValue (d :: ds) : Int) else (digitsValue (d :: ds) : Int), rest)

/-- Optional exponent: `e` or `E`, an optional sign, at least one digit. -/
def parseExp : JSString → Int × JSString
  | [] => (0, [])
  | c :: cs =>
    if c = 101 || c = 69 then
      match cs with
      | [] => (0, c :: cs)
      | s :: cs1 =>
        if s = 43 then parseExpDigits false cs1 (c :: cs)
        else if s = 45 then parseExpDigits true cs1 (c :: cs)
        else parseExpDigits false cs (c :: cs)
    else (0, c :: cs)

def parseUnsigned (neg : Bool) (cs : JSString) : Option (JSValue × JSString) :=
  match parseInt cs with
  | none => none
  | some (ints, cs1) =>
    some (.number neg (digitsValue (ints ++ (parseFrac cs1).1))
            ((parseExp (parseFrac cs1).2).1 - (parseFrac cs1).1.length),
          (parseExp (parseFrac cs1).2).2)

def parseNumber : JSString → Option (JSValue × JSString)
  | [] => none
  | c :: cs => if c = 45 then parseUnsigned true cs else parseUnsigned false (c :: cs)

/-- The text after the given literal, when the text starts with it. -/
def stripLiteral : JSString → JSString → Option JSString
  | [], cs => some cs
  | _ :: _, [] => none
  | p :: ps, c :: cs => if p = c then stripLiteral ps cs else none

mutual
/-- One JSON value at the head of the text (after white space) and the text
after it. The first argument bounds the recursion depth; `parse` passes a bound
that is never reached (`parseValue_fuel_irrelevant`). -/
def parseValue : Nat → JSString → Option (JSValue × JSString)
  | 0, _ => none
  | fuel + 1, text =>
    match skipWhitespace text with
    | [] => none
    | c :: cs =>
      if c = 34 then
        match parseStringBody cs with
        | some (s, rest) => some (.string s, rest)
        | none => none
      else if c = 91 then
        match skipWhitespace cs with
        | [] => none
        | d :: ds => if d = 93 then some (.array [], ds) else parseElements fuel (d :: ds) []
      else if c = 123 then
        match skipWhitespace cs with
        | [] => none
        | d :: ds => if d = 125 then some (.object [], ds) else parseMembers fuel (d :: ds) []
      else if c = 110 then (stripLiteral (lit "ull") cs).map (fun rest => (.null, rest))
      else if c = 116 then (stripLiteral (lit "rue") cs).map (fun rest => (.bool true, rest))
      else if c = 102 then (stripLiteral (lit "alse") cs).map (fun rest => (.bool false, rest))
      else parseNumber (c :: cs)
/-- The elements of a non-empty array, up to and including the closing `]`. -/
def parseElements : Nat → JSString → List JSValue → Option (JSValue × JSString)
  | 0, _, _ => none
  | fuel + 1, text, acc =>
    match parseValue fuel text with
    | none => none
    | some (v, rest) =>
      match skipWhitespace rest with
      | [] => none
      | c :: cs =>
        if c = 44 then parseElements fuel cs (acc ++ [v])
        else if c = 93 then some (.array (acc ++ [v]), cs)
        else none
/-- The members of a non-empty object, up to and including the closing brace. -/
def parseMembers : Nat → JSString → List (JSString × JSValue) → Option (JSValue × JSString)
  | 0, _, _ => none
  | fuel + 1, text, acc =>
    match skipWhitespace text with
    | [] => none
    | q :: cs0 =>
      if q = 34 then
        match parseStringBody cs0 with
        | none => none
        | some (key, rest0) =>
          match skipWhitespace rest0 with
          | [] => none
          | colon :: rest1 =>
            if colon = 58 then
              match parseValue fuel rest1 with
              | none => none
              | some (v, rest) =>
                match skipWhitespace rest with
                | [] => none
                | c :: cs =>
                  if c = 44 then parseMembers fuel cs (acc ++ [(key, v)])
                  else if c = 125 then some (.object (acc ++ [(key, v)]), cs)
                  else none
            else none
      else none
end

/-- The built-in `JSON.parse(text)` on a string: the value of the text, or a
`SyntaxError` when the text is not one JSON value surrounded by white space. -/
def parse (text : JSString) : Except JSError JSValue :=
  match parseValue (2 * text.length + 2) text with
  | none => .error .SyntaxError
  | some (v, rest) => if skipWhitespace rest = [] then .ok v else .error .SyntaxError

/-- The escape `\uXXXX` with lower-case digits. -/
def unicodeEscape (c : Nat) : JSString :=
  [92, 117, hexDigit (c / 4096 % 16), hexDigit (c / 256 % 16), hexDigit (c / 16 % 16),
    hexDigit (c % 16)]

def isLeadSurrogate (c : Nat) : Bool := decide (55296 ≤ c) && decide (c ≤ 56319)

def isTrailSurrogate (c : Nat) : Bool := decide (56320 ≤ c) && decide (c ≤ 57343)

/-- How `JSON.stringify` writes one code unit of a string, given its
neighbours: the short escapes, `\u00XX` for the other control characters,
`\uDXXX` for a surrogate that is not part of a pair, the code unit itself
otherwise. -/
def quoteUnit (prev : Option Nat) (c : Nat) (next : Option Nat) : JSString :=
  if c = 8 then [92, 98] else if c = 9 then [92, 116] else if c = 10 then [92, 110]
  else if c = 12 then [92, 102] else if c = 13 then [92, 114]
  else if c = 34 then [92, 34] else if c = 92 then [92, 92]
  else if c < 32 then unicodeEscape c
  else if isLeadSurrogate c && !(next.any isTrailSurrogate) then unicodeEscape c
  else if isTrailSurrogate c && !(prev.any isLeadSurrogate) then unicodeEscape c
  else [c]

def quoteUnits (prev : Option Nat) : JSString → JSString
  | [] => []
  | c :: rest => quoteUnit prev c rest.head? ++ quoteUnits (some c) rest

/-- A string as `JSON.stringify` writes it, between double quotes. -/
def quote (s : JSString) : JSString := 34 :: (quoteUnits none s ++ [34])

end JSON

/-! ## Collaborators, effects and promises -/

/-- The object `hashPass` resolves to, `{hash: ..., salt: ...}`. -/
structure HashResult where
  hash : JSString
  salt : JSString
  deriving DecidableEq

/-- The call `JSON.stringify(result)` on `{hash, salt}`: the two members in the
order the object literal lists them. -/
def JSON.stringify (result : HashResult) : JSString :=
  lit "\x7b\"hash\":" ++ JSON.quote result.hash ++ lit ",\"salt\":" ++ JSON.quote result.salt
    ++ lit "\x7d"

/-- The string `JSON.parse` works on when handed the result of `getItem`:
`null` becomes the text `null`. -/
def toStringOrNull : Option JSString → JSString
  | none => lit "null"
  | some s => s

/-- The collaborators whose code is not part of the module, as functions of
their arguments.
* `pbkdf2 password salt iterations keylen digest` is what `crypto.pbkdf2`
  hands to its callback: an error, or the derived key.
* `bufferOf v` is `new Buffer(v, "hex")` for a `v` that is not a string. -/
structure Host where
  pbkdf2 : JSString → Bytes → Nat → Nat → JSString → Except JSError Bytes
  bufferOf : JSValue → Except JSError Bytes

/-- The constructor call `new Buffer(v, "hex")`. -/
def newBuffer (host : Host) : JSValue → Except JSError Bytes
  | .string s => .ok (fromHex s)
  | v => host.bufferOf v

/-- The contents of `localStorage`: the string held under each key, if any. -/
abbrev Store := JSString → Option JSString

/-- The call `localStorage.setItem(key, value)`. -/
def Store.setItem (st : Store) (key value : JSString) : Store :=
  fun k => if k = key then some value else st k

/-- Calls made on the collaborators, in the order they are made. -/
inductive Effect
  | randomBytes (size : Nat)
  | pbkdf2 (password : JSString) (salt : Bytes) (iterations keylen : Nat) (digest : JSString)
  | getItem (key : JSString)
  | setItem (key value : JSString)
  deriving DecidableEq

/-- What a `pbkdf2` callback does to its promise: calls of `resolve` and
`reject`, and an exception leaving the callback (`threw`), which ends it. -/
inductive Event (α : Type)
  | resolve (value : α)
  | reject (reason : JSError)
  | threw (e : JSError)
  deriving DecidableEq

inductive PromiseState (α : Type)
  | pending
  | fulfilled (value : α)
  | rejected (reason : JSError)
  deriving DecidableEq

/-- The state the events leave a promise in: the first `resolve` or `reject`
settles it, later calls change nothing. -/
def settle {α : Type} : List (Event α) → PromiseState α
  | [] => .pending
  | .resolve v :: _ => .fulfilled v
  | .reject e :: _ => .rejected e
  | .threw _ :: _ => .pending

/-- The exception that left the callback, if one did. -/
def uncaughtOf {α : Type} : List (Event α) → Option JSError
  | [] => none
  | .threw e :: _ => some e
  | _ :: rest => uncaughtOf rest

/-- A promise once its asynchronous work is over: its state, and the exception
that escaped the callback outside of the promise, if any. -/
structure Promise (α : Type) where
  state : PromiseState α
  uncaught : Option JSError
  deriving DecidableEq

def Promise.ofEvents {α : Type} (events : List (Event α)) : Promise α :=
  ⟨settle events, uncaughtOf events⟩

/-- How a call ends for its caller: an exception raised synchronously, or a
returned value. -/
inductive Completion (α : Type)
  | threw (e : JSError)
  | returned (value : α)
  deriving DecidableEq

/-- A method call: the calls it made on the collaborators and how it ended. -/
structure Call (α : Type) where
  effects : List Effect
  completion : Completion α
  deriving DecidableEq

/-- The `setItem` calls among the effects. -/
def writes : List Effect → List (JSString × JSString)
  | [] => []
  | .setItem k v :: rest => (k, v) :: writes rest
  | _ :: rest => writes rest

/-- The `pbkdf2` calls among the effects. -/
def pbkdf2Calls : List Effect → List Effect
  | [] => []
  | .pbkdf2 p s i k d :: rest => .pbkdf2 p s i k d :: pbkdf2Calls rest
  | _ :: rest => pbkdf2Calls rest

/-- The arguments `(err, pbkdf2Pass)` the callback receives: the error and no
key (`undefined`) when the derivation failed, no error and the key otherwise. -/
def callbackArgs : Except JSError Bytes → Option JSError × Option Bytes
  | .error e => (some e, none)
  | .ok key => (none, some key)

/-! ## `PasswordManagement` -/

namespace PasswordManagement

/-- The storage key of an account, `${account}:password`. -/
def passwordKey (account : JSString) : JSString := account ++ lit ":password"

/-- The callback `hashPass` gives to `crypto.pbkdf2`:
`if(err) { reject(err) }`, then
`resolve({hash: pbkdf2Pass.toString("hex"), salt: salt.toString("hex")})`,
where reading `toString` of an `undefined` key raises a `TypeError`. -/
def hashPassCallback (salt : Bytes) (err : Option JSError) (pbkdf2Pass : Option Bytes) :
    List (Event HashResult) :=
  (match err with
    | some e => [.reject e]
    | none => []) ++
  (match pbkdf2Pass with
    | none => [.threw .TypeError]
    | some key => [.resolve { hash := toStringHex key, salt := toStringHex salt }])

/-- The method `hashPass(password)`; `drawn` is what `crypto.randomBytes(8)`
gives this time: the salt, or the exception it raises. -/
def hashPass (host : Host) (password : JSString) (drawn : Except JSError Bytes) :
    Call (Promise HashResult) :=
  match drawn with
  | .error e => ⟨[.randomBytes 8], .threw e⟩
  | .ok salt =>
    ⟨[.randomBytes 8, .pbkdf2 password salt 100000 16 (lit "sha256")],
      .returned (Promise.ofEvents
        (hashPassCallback salt
          (callbackArgs (host.pbkdf2 password salt 100000 16 (lit "sha256"))).1
          (callbackArgs (host.pbkdf2 password salt 100000 16 (lit "sha256"))).2))⟩

/-- The callback `checkPass` gives to `crypto.pbkdf2`:
`if(err) { reject(err) }`, then
`resolve(pbkdf2Pass.equals(new Buffer(hash, "hex")))`. -/
def checkPassCallback (host : Host) (hash : JSValue) (err : Option JSError)
    (pbkdf2Pass : Option Bytes) : List (Event Bool) :=
  (match err with
    | some e => [.reject e]
    | none => []) ++
  (match pbkdf2Pass with
    | none => [.threw .TypeError]
    | some key =>
      match newBuffer host hash with
      | .error e => [.threw e]
      | .ok expected => [.resolve (decide (key = expected))])

/-- The method `checkPass(password, hash, salt)`. An exception raised while the
promise executor builds the salt buffer rejects the promise. -/
def checkPass (host : Host) (password : JSString) (hash salt : JSValue) :
    Call (Promise Bool) :=
  match newBuffer host salt with
  | .error e => ⟨[], .returned (Promise.ofEvents [.reject e])⟩
  | .ok saltBytes =>
    ⟨[.pbkdf2 password saltBytes 100000 16 (lit "sha256")],
      .returned (Promise.ofEvents
        (checkPassCallback host hash
          (callbackArgs (host.pbkdf2 password saltBytes 100000 16 (lit "sha256"))).1
          (callbackArgs (host.pbkdf2 password saltBytes 100000 16 (lit "sha256"))).2))⟩

/-- The method `storePass(password, account)`: the call and the store it
leaves. The `then` callback runs, and writes, only when the promise of
`hashPass` is fulfilled. -/
def storePass (host : Host) (st : Store) (password account : JSString)
    (drawn : Except JSError Bytes) : Call (Promise Unit) × Store :=
  match (hashPass host password drawn).completion with
  | .threw e => (⟨(hashPass host password drawn).effects, .threw e⟩, st)
  | .returned p =>
    match p.state with
    | .fulfilled result =>
      (⟨(hashPass host password drawn).effects ++
          [.setItem (passwordKey account) (JSON.stringify result)],
        .returned ⟨.fulfilled (), p.uncaught⟩⟩,
       st.setItem (passwordKey account) (JSON.stringify result))
    | .rejected e =>
      (⟨(hashPass host password drawn).effects, .returned ⟨.rejected e, p.uncaught⟩⟩, st)
    | .pending =>
      (⟨(hashPass host password drawn).effects, .returned ⟨.pending, p.uncaught⟩⟩, st)

/-- The method `checkAccountPass(password, account)`. `JSON.parse` runs before
any promise exists, so its `SyntaxError` is raised to the caller. -/
def checkAccountPass (host : Host) (st : Store) (password account : JSString) :
    Call (Promise Bool) :=
  match JSON.parse (toStringOrNull (st (passwordKey account))) with
  | .error e => ⟨[.getItem (passwordKey account)], .threw e⟩
  | .ok pdata =>
    if toBoolean pdata then
      ⟨.getItem (passwordKey account) ::
          (checkPass host password (pdata.get (lit "hash")) (pdata.get (lit "salt"))).effects,
        (checkPass host password (pdata.get (lit "hash")) (pdata.get (lit "salt"))).completion⟩
    else
      ⟨[.getItem (passwordKey account)], .returned ⟨.fulfilled false, none⟩⟩

/-- The method `hasAccountPass(account)`, `!!getItem(key)`: `null` and the
empty string are falsy. -/
def hasAccountPass (st : Store) (account : JSString) : Call Bool :=
  ⟨[.getItem (passwordKey account)],
    .returned (match st (passwordKey account) with
      | none => false
      | some v => !v.isEmpty)⟩

end PasswordManagement

/-! ## Sample collaborators and auxiliary predicates -/

/-- A host for concrete runs. Its `pbkdf2` is a stand-in: the first `keylen`
bytes of the salt, the password and a filler. Its `bufferOf` raises the
`TypeError` Node raises for `new Buffer(v, "hex")` when `v` is a number, a
boolean, `null` or `undefined`; the runs below hand it such values only. -/
def sampleHost : Host where
  pbkdf2 := fun password salt _ keylen _ =>
    .ok ((salt ++ password.map (fun c => (⟨c % 256, Nat.mod_lt _ (by decide)⟩ : Fin 256))
      ++ List.replicate 16 171).take keylen)
  bufferOf := fun _ => .error .TypeError

/-- A host whose `pbkdf2` reports an error. -/
def failingHost : Host where
  pbkdf2 := fun _ _ _ _ _ => .error (.primitive 1)
  bufferOf := fun _ => .error .TypeError

def emptyStore : Store := fun _ => none

/-- The code unit with bit `k` flipped. -/
def flipBit (c k : Nat) : Nat := c ^^^ 2 ^ k

def sampleSalt : Bytes := [1, 2, 3, 4, 5, 6, 7, 8]

/-- Code units that `JSON.stringify` writes as they are and that a JSON string
literal may contain as they are. -/
def isPlain (c : Nat) : Bool :=
  decide (32 ≤ c) && decide (c ≠ 34) && decide (c ≠ 92) && decide (c < 55296)

/-! ## Lemmas -/

open PasswordManagement

theorem unhex_hexDigit (n : Nat) (h : n < 16) : unhex (hexDigit n % 256) = some n := by
  interval_cases n <;> rfl

theorem fromHex_toStringHex (b : Bytes) : fromHex (toStringHex b) = b := by
  induction b with
  | nil => rfl
  | cons x xs ih =>
    have h1 : x.val / 16 < 16 := by omega
    have h2 : x.val % 16 < 16 := by omega
    simp only [toStringHex, fromHex, unhex_hexDigit _ h1, unhex_hexDigit _ h2, ih]
    congr 1
    apply Fin.ext
    simp only
    omega

theorem isPlain_hexDigit (n : Nat) (h : n < 16) : isPlain (hexDigit n) = true := by
  interval_cases n <;> rfl

theorem toStringHex_plain (b : Bytes) : ∀ c ∈ toStringHex b, isPlain c = true := by
  induction b with
  | nil => simp [toStringHex]
  | cons x xs ih =>
    intro c hc
    simp only [toStringHex, List.mem_cons] at hc
    rcases hc with rfl | rfl | hc
    · exact isPlain_hexDigit _ (by omega)
    · exact isPlain_hexDigit _ (by omega)
    · exact ih c hc

theorem quoteUnit_plain (prev next : Option Nat) (c : Nat) (h : isPlain c = true) :
    JSON.quoteUnit prev c next = [c] := by
  simp only [isPlain, Bool.and_eq_true, decide_eq_true_eq] at h
  obtain ⟨⟨⟨h1, h2⟩, h3⟩, h4⟩ := h
  have e1 : JSON.isLeadSurrogate c = false := by
    simp only [JSON.isLeadSurrogate, Bool.and_eq_false_imp, decide_eq_true_eq,
      decide_eq_false_iff_not]
    omega
  have e2 : JSON.isTrailSurrogate c = false := by
    simp only [JSON.isTrailSurrogate, Bool.and_eq_false_imp, decide_eq_true_eq,
      decide_eq_false_iff_not]
    omega
  unfold JSON.quoteUnit
  rw [e1, e2]
  have : ¬ c = 8 := by omega
  have : ¬ c = 9 := by omega
  have : ¬ c = 10 := by omega
  have : ¬ c = 12 := by omega
  have : ¬ c = 13 := by omega
  have : ¬ c < 32 := by omega
  simp [*]

theorem quoteUnits_plain (s : JSString) (h : ∀ c ∈ s, isPlain c = true) (prev : Option Nat) :
    JSON.quoteUnits prev s = s := by
  induction s generalizing prev with
  | nil => rfl
  | cons c cs ih =>
    simp only [JSON.quoteUnits, quoteUnit_plain _ _ c (h c (List.mem_cons_self _ _))]
    rw [ih (fun d hd => h d (List.mem_cons_of_mem _ hd))]
    rfl

theorem quote_plain (s : JSString) (h : ∀ c ∈ s, isPlain c = true) :
    JSON.quote s = 34 :: (s ++ [34]) := by
  simp [JSON.quote, quoteUnits_plain s h]

theorem parseStringBody_plain (s rest : JSString) (h : ∀ c ∈ s, isPlain c = true) :
    JSON.parseStringBody (s ++ 34 :: rest) = some (s, rest) := by
  induction s with
  | nil =>
    rw [List.nil_append, JSON.parseStringBody.eq_def]
    simp
  | cons c cs ih =>
    have hc := h c (List.mem_cons_self _ _)
    simp only [isPlain, Bool.and_eq_true, decide_eq_true_eq] at hc
    obtain ⟨⟨⟨h1, h2⟩, h3⟩, h4⟩ := hc
    have h5 : ¬ c < 32 := by omega
    rw [List.cons_append, JSON.parseStringBody.eq_def]
    simp only [h2, h3, h5, if_false, ih (fun d hd => h d (List.mem_cons_of_mem _ hd))]


theorem stringify_plain (h s : JSString) (hh : ∀ c ∈ h, isPlain c = true)
    (hs : ∀ c ∈ s, isPlain c = true) :
    JSON.stringify ⟨h, s⟩ =
      123 :: 34 :: 104 :: 97 :: 115 :: 104 :: 34 :: 58 :: 34 ::
        (h ++ 34 :: 44 :: 34 :: 115 :: 97 :: 108 :: 116 :: 34 :: 58 :: 34 :: (s ++ [34, 125])) := by
  have e1 : lit "\x7b\"hash\":" = [123, 34, 104, 97, 115, 104, 34, 58] := by decide
  have e2 : lit ",\"salt\":" = [44, 34, 115, 97, 108, 116, 34, 58] := by decide
  have e3 : lit "\x7d" = [125] := by decide
  simp [JSON.stringify, quote_plain h hh, quote_plain s hs, e1, e2, e3]

theorem skipWhitespace_cons (c : Nat) (cs : JSString) (h : JSON.isWhitespace c = false) :
    JSON.skipWhitespace (c :: cs) = c :: cs := by
  simp [JSON.skipWhitespace, h]

theorem parseValue_stringify (h s : JSString) (hh : ∀ c ∈ h, isPlain c = true)
    (hs : ∀ c ∈ s, isPlain c = true) (fuel : Nat) :
    JSON.parseValue (fuel + 4) (JSON.stringify ⟨h, s⟩) =
      some (.object [([104, 97, 115, 104], .string h), ([115, 97, 108, 116], .string s)], []) := by
  rw [stringify_plain h s hh hs]
  have b1 := parseStringBody_plain [104, 97, 115, 104]
    (58 :: 34 ::
      (h ++ 34 :: 44 :: 34 :: 115 :: 97 :: 108 :: 116 :: 34 :: 58 :: 34 :: (s ++ [34, 125])))
    (by decide)
  have b2 := parseStringBody_plain h
    (44 :: 34 :: 115 :: 97 :: 108 :: 116 :: 34 :: 58 :: 34 :: (s ++ [34, 125])) hh
  have b3 := parseStringBody_plain [115, 97, 108, 116] (58 :: 34 :: (s ++ [34, 125])) (by decide)
  have b4 := parseStringBody_plain s [125] hs
  simp only [List.cons_append, List.nil_append] at b1 b3
  rw [JSON.parseValue]
  rw [skipWhitespace_cons _ _ (by decide)]
  simp only [show ¬ (123 = 34) by decide, show ¬ (123 = 91) by decide, if_false, if_true]
  rw [skipWhitespace_cons _ _ (by decide)]
  simp only [show ¬ (34 = 125) by decide, if_false]
  rw [JSON.parseMembers, skipWhitespace_cons _ _ (by decide)]
  simp only [if_true, b1]
  rw [skipWhitespace_cons _ _ (by decide)]
  simp only [if_true]
  rw [JSON.parseValue, skipWhitespace_cons _ _ (by decide)]
  simp only [if_true, b2]
  rw [skipWhitespace_cons _ _ (by decide)]
  simp only [if_true]
  rw [JSON.parseMembers, skipWhitespace_cons _ _ (by decide)]
  simp only [if_true, b3]
  rw [skipWhitespace_cons _ _ (by decide)]
  simp only [if_true]
  rw [JSON.parseValue, skipWhitespace_cons _ _ (by decide)]
  simp only [if_true, b4]
  rw [skipWhitespace_cons _ _ (by decide)]
  simp


theorem parse_stringify (h s : JSString) (hh : ∀ c ∈ h, isPlain c = true)
    (hs : ∀ c ∈ s, isPlain c = true) :
    JSON.parse (JSON.stringify ⟨h, s⟩) =
      .ok (.object [([104, 97, 115, 104], .string h), ([115, 97, 108, 116], .string s)]) := by
  have hlen : 1 ≤ (JSON.stringify ⟨h, s⟩).length := by
    rw [stringify_plain h s hh hs]
    simp
  obtain ⟨f, hf⟩ : ∃ f, 2 * (JSON.stringify ⟨h, s⟩).length + 2 = f + 4 :=
    ⟨2 * (JSON.stringify ⟨h, s⟩).length - 2, by omega⟩
  unfold JSON.parse
  rw [hf, parseValue_stringify h s hh hs f]
  rfl

theorem hashPass_fulfilled (host : Host) (p : JSString) (s : Bytes) (r : HashResult)
    (u : Option JSError)
    (h : (hashPass host p (.ok s)).completion = .returned ⟨.fulfilled r, u⟩) :
    ∃ key, host.pbkdf2 p s 100000 16 (lit "sha256") = .ok key ∧
      r = ⟨toStringHex key, toStringHex s⟩ ∧ u = none := by
  unfold hashPass at h
  simp only at h
  cases hk : host.pbkdf2 p s 100000 16 (lit "sha256") with
  | error e =>
    rw [hk] at h
    simp [callbackArgs, hashPassCallback, Promise.ofEvents, settle] at h
  | ok key =>
    rw [hk] at h
    simp [callbackArgs, hashPassCallback, Promise.ofEvents, settle, uncaughtOf] at h
    exact ⟨key, rfl, h.1.symm, h.2.symm⟩

theorem checkPass_ok (host : Host) (secret digestHex saltHex : JSString) (key : Bytes)
    (h : host.pbkdf2 secret (fromHex saltHex) 100000 16 (lit "sha256") = .ok key) :
    checkPass host secret (.string digestHex) (.string saltHex) =
      ⟨[.pbkdf2 secret (fromHex saltHex) 100000 16 (lit "sha256")],
        .returned ⟨.fulfilled (decide (key = fromHex digestHex)), none⟩⟩ := by
  simp [checkPass, newBuffer, h, callbackArgs, checkPassCallback, Promise.ofEvents, settle,
    uncaughtOf]

theorem checkPass_error (host : Host) (secret : JSString) (hash : JSValue) (saltHex : JSString)
    (e : JSError)
    (h : host.pbkdf2 secret (fromHex saltHex) 100000 16 (lit "sha256") = .error e) :
    checkPass host secret hash (.string saltHex) =
      ⟨[.pbkdf2 secret (fromHex saltHex) 100000 16 (lit "sha256")],
        .returned ⟨.rejected e, some .TypeError⟩⟩ := by
  simp [checkPass, newBuffer, h, callbackArgs, checkPassCallback, Promise.ofEvents, settle,
    uncaughtOf]


theorem storePass_fulfilled (host : Host) (st : Store) (p a : JSString)
    (drawn : Except JSError Bytes) (u : Option JSError)
    (h : (storePass host st p a drawn).1.completion = .returned ⟨.fulfilled (), u⟩) :
    ∃ s key, drawn = .ok s ∧ host.pbkdf2 p s 100000 16 (lit "sha256") = .ok key ∧
      (storePass host st p a drawn).2 =
        st.setItem (passwordKey a) (JSON.stringify ⟨toStringHex key, toStringHex s⟩) := by
  cases drawn with
  | error e => simp [storePass, hashPass] at h
  | ok s =>
    cases hk : host.pbkdf2 p s 100000 16 (lit "sha256") with
    | error e =>
      simp [storePass, hashPass, hk, callbackArgs, hashPassCallback, Promise.ofEvents, settle] at h
    | ok key =>
      refine ⟨s, key, rfl, hk, ?_⟩
      simp [storePass, hashPass, hk, callbackArgs, hashPassCallback, Promise.ofEvents, settle]

theorem checkAccountPass_stored (host : Host) (st : Store) (p a : JSString) (key s : Bytes)
    (h : st (passwordKey a) = some (JSON.stringify ⟨toStringHex key, toStringHex s⟩)) :
    checkAccountPass host st p a =
      ⟨.getItem (passwordKey a) ::
          (checkPass host p (.string (toStringHex key)) (.string (toStringHex s))).effects,
        (checkPass host p (.string (toStringHex key)) (.string (toStringHex s))).completion⟩ := by
  have hp := parse_stringify (toStringHex key) (toStringHex s) (toStringHex_plain key)
    (toStringHex_plain s)
  have e1 : lit "hash" = [104, 97, 115, 104] := by decide
  have e2 : lit "salt" = [115, 97, 108, 116] := by decide
  unfold checkAccountPass
  rw [h]
  simp only [toStringOrNull, hp, toBoolean, if_true, e1, e2]
  simp [JSValue.get]

theorem setItem_same (st : Store) (k v : JSString) : st.setItem k v k = some v := by
  simp [Store.setItem]

theorem setItem_other (st : Store) (k v k2 : JSString) (h : k2 ≠ k) :
    st.setItem k v k2 = st k2 := by
  simp [Store.setItem, h]

theorem checkAccountPass_congr (host : Host) (st1 st2 : Store) (p b : JSString)
    (h : st1 (passwordKey b) = st2 (passwordKey b)) :
    checkAccountPass host st1 p b = checkAccountPass host st2 p b := by
  unfold checkAccountPass
  rw [h]

theorem hasAccountPass_congr (st1 st2 : Store) (b : JSString)
    (h : st1 (passwordKey b) = st2 (passwordKey b)) :
    hasAccountPass st1 b = hasAccountPass st2 b := by
  unfold hasAccountPass
  rw [h]

theorem passwordKey_injective (a b : JSString) (h : passwordKey a = passwordKey b) : a = b := by
  unfold passwordKey at h
  exact List.append_cancel_right h

theorem storePass_other_key (host : Host) (st : Store) (p a : JSString)
    (drawn : Except JSError Bytes) (k : JSString) (hk : k ≠ passwordKey a) :
    (storePass host st p a drawn).2 k = st k := by
  unfold storePass
  split
  · rfl
  · split
    · exact setItem_other st _ _ k hk
    · rfl
    · rfl

theorem storePass_writes (host : Host) (st : Store) (p a : JSString)
    (drawn : Except JSError Bytes) :
    (∃ u v, (storePass host st p a drawn).1.completion = .returned ⟨.fulfilled (), u⟩ ∧
        writes (storePass host st p a drawn).1.effects = [(passwordKey a, v)]) ∨
    ((∀ u, (storePass host st p a drawn).1.completion ≠ .returned ⟨.fulfilled (), u⟩) ∧
        writes (storePass host st p a drawn).1.effects = []) := by
  cases drawn with
  | error e => right; simp [storePass, hashPass, writes]
  | ok s =>
    cases hk : host.pbkdf2 p s 100000 16 (lit "sha256") with
    | error e =>
      right
      simp [storePass, hashPass, hk, callbackArgs, hashPassCallback, Promise.ofEvents, settle,
        writes]
    | ok key =>
      left
      simp [storePass, hashPass, hk, callbackArgs, hashPassCallback, Promise.ofEvents, settle,
        writes]

theorem unhex_lt (c v : Nat) (h : unhex c = some v) : v < 16 := by
  unfold unhex at h
  split at h
  · simp at h; omega
  · split at h
    · simp at h; omega
    · split at h
      · simp at h; omega
      · simp at h

theorem unhex_flip_hexDigit (n k : Nat) (hn : n < 16) (hk : k < 16)
    (hx : ¬ ((k = 5 ∧ 97 ≤ hexDigit n) ∨ 8 ≤ k)) :
    unhex (flipBit (hexDigit n) k % 256) ≠ some n := by
  have key : ∀ n : Fin 16, ∀ k : Fin 16, ¬ ((k.val = 5 ∧ 97 ≤ hexDigit n.val) ∨ 8 ≤ k.val) →
      unhex (flipBit (hexDigit n.val) k.val % 256) ≠ some n.val := by decide
  exact key ⟨n, hn⟩ ⟨k, hk⟩ hx

theorem fromHex_flip_ne (key : Bytes) (i k : Nat) (hi : i < (toStringHex key).length)
    (hk : k < 16) (hx : ¬ ((k = 5 ∧ 97 ≤ (toStringHex key).getD i 0) ∨ 8 ≤ k)) :
    fromHex ((toStringHex key).set i (flipBit ((toStringHex key).getD i 0) k)) ≠ key := by
  induction key generalizing i with
  | nil => simp [toStringHex] at hi
  | cons b bs ih =>
    have h1 : b.val / 16 < 16 := by omega
    have h2 : b.val % 16 < 16 := by omega
    match i with
    | 0 =>
      simp only [toStringHex, List.set_cons_zero, List.getD_cons_zero, fromHex] at hx ⊢
      have hne := unhex_flip_hexDigit _ k h1 hk hx
      rw [unhex_hexDigit _ h2]
      cases hu : unhex (flipBit (hexDigit (b.val / 16)) k % 256) with
      | none => simp
      | some v =>
        have hv := unhex_lt _ _ hu
        rw [hu] at hne
        simp only [ne_eq, Option.some.injEq] at hne
        simp only [ne_eq, List.cons.injEq, not_and]
        intro hb
        exfalso
        have := congrArg Fin.val hb
        simp only at this
        omega
    | 1 =>
      simp only [toStringHex, List.set_cons_succ, List.set_cons_zero, List.getD_cons_succ,
        List.getD_cons_zero, fromHex] at hx ⊢
      have hne := unhex_flip_hexDigit _ k h2 hk hx
      rw [unhex_hexDigit _ h1]
      cases hu : unhex (flipBit (hexDigit (b.val % 16)) k % 256) with
      | none => simp
      | some v =>
        have hv := unhex_lt _ _ hu
        rw [hu] at hne
        simp only [ne_eq, Option.some.injEq] at hne
        simp only [ne_eq, List.cons.injEq, not_and]
        intro hb
        exfalso
        have := congrArg Fin.val hb
        simp only at this
        omega
    | j + 2 =>
      simp only [toStringHex, List.set_cons_succ, List.getD_cons_succ, fromHex,
        unhex_hexDigit _ h1, unhex_hexDigit _ h2, List.length_cons] at hx hi ⊢
      have := ih j (by omega) hx
      simp only [ne_eq, List.cons.injEq, not_and]
      intro _
      exact this

theorem unhex_flip_same (n k : Nat) (hn : n < 16) (hk : k < 16)
    (hx : (k = 5 ∧ 97 ≤ hexDigit n) ∨ 8 ≤ k) :
    unhex (flipBit (hexDigit n) k % 256) = some n := by
  have key : ∀ n : Fin 16, ∀ k : Fin 16, ((k.val = 5 ∧ 97 ≤ hexDigit n.val) ∨ 8 ≤ k.val) →
      unhex (flipBit (hexDigit n.val) k.val % 256) = some n.val := by decide
  exact key ⟨n, hn⟩ ⟨k, hk⟩ hx

theorem fromHex_flip_same (key : Bytes) (i k : Nat) (hi : i < (toStringHex key).length)
    (hk : k < 16) (hx : (k = 5 ∧ 97 ≤ (toStringHex key).getD i 0) ∨ 8 ≤ k) :
    fromHex ((toStringHex key).set i (flipBit ((toStringHex key).getD i 0) k)) = key := by
  induction key generalizing i with
  | nil => simp [toStringHex] at hi
  | cons b bs ih =>
    have h1 : b.val / 16 < 16 := by omega
    have h2 : b.val % 16 < 16 := by omega
    match i with
    | 0 =>
      simp only [toStringHex, List.set_cons_zero, List.getD_cons_zero, fromHex] at hx ⊢
      rw [unhex_hexDigit _ h2, unhex_flip_same _ k h1 hk hx]
      simp only [fromHex_toStringHex]
      congr 1
      apply Fin.ext
      simp only
      omega
    | 1 =>
      simp only [toStringHex, List.set_cons_succ, List.set_cons_zero, List.getD_cons_succ,
        List.getD_cons_zero, fromHex] at hx ⊢
      rw [unhex_hexDigit _ h1, unhex_flip_same _ k h2 hk hx]
      simp only [fromHex_toStringHex]
      congr 1
      apply Fin.ext
      simp only
      omega
    | j + 2 =>
      simp only [toStringHex, List.set_cons_succ, List.getD_cons_succ, fromHex,
        unhex_hexDigit _ h1, unhex_hexDigit _ h2, List.length_cons] at hx hi ⊢
      rw [ih j (by omega) hx]
      congr 1
      apply Fin.ext
      simp only
      omega

theorem checkPass_returns (host : Host) (p : JSString) (hash salt : JSValue) :
    ∃ q, (checkPass host p hash salt).completion = .returned q := by
  unfold checkPass
  split
  · exact ⟨_, rfl⟩
  · exact ⟨_, rfl⟩

theorem parse_null : JSON.parse (lit "null") = .ok .null := by
  rfl

/-! ### `JSON.parse` does not depend on its recursion bound -/

namespace JSON

theorem skipWhitespace_length (t : JSString) : (skipWhitespace t).length ≤ t.length := by
  induction t with
  | nil => simp [skipWhitespace]
  | cons c cs ih =>
    simp only [skipWhitespace]
    split
    · simp only [List.length_cons]; omega
    · exact Nat.le_refl _

theorem parseStringBody_length_aux (n : Nat) : ∀ (t s r : JSString), t.length ≤ n →
    parseStringBody t = some (s, r) → r.length < t.length := by
  induction n with
  | zero =>
    intro t s r hn h
    have : t = [] := List.length_eq_zero.mp (Nat.le_zero.mp hn)
    subst this
    rw [parseStringBody.eq_def] at h
    simp at h
  | succ n ih =>
    intro t s r hn h
    rw [parseStringBody.eq_def] at h
    split at h
    · simp at h
    · rename_i c rest
      simp only [List.length_cons] at hn ⊢
      split at h
      · simp only [Option.some.injEq, Prod.mk.injEq] at h
        rw [← h.2]; omega
      · split at h
        · split at h
          · simp at h
          · rename_i e rest1
            simp only [List.length_cons] at hn ⊢
            split at h
            · split at h
              · rename_i a b c2 d rest2
                simp only [List.length_cons] at hn ⊢
                split at h
                · rename_i u s2 r2 _ hrec
                  simp only [Option.some.injEq, Prod.mk.injEq] at h
                  have := ih rest2 s2 r2 (by omega) hrec
                  rw [← h.2]; omega
                · simp at h
              · simp at h
            · split at h
              · rename_i u s2 r2 _ hrec
                simp only [Option.some.injEq, Prod.mk.injEq] at h
                have := ih rest1 s2 r2 (by omega) hrec
                rw [← h.2]; omega
              · simp at h
        · split at h
          · simp at h
          · split at h
            · rename_i s2 r2 hrec
              simp only [Option.some.injEq, Prod.mk.injEq] at h
              have := ih rest s2 r2 (by omega) hrec
              rw [← h.2]; omega
            · simp at h

theorem parseStringBody_length (t s r : JSString) (h : parseStringBody t = some (s, r)) :
    r.length < t.length :=
  parseStringBody_length_aux t.length t s r (Nat.le_refl _) h

theorem takeDigits_length (t : JSString) : (takeDigits t).2.length ≤ t.length := by
  induction t with
  | nil => simp [takeDigits]
  | cons c cs ih =>
    simp only [takeDigits]
    split
    · simp only [List.length_cons]; omega
    · exact Nat.le_refl _

theorem parseInt_length (t : JSString) (ds : List Nat) (r : JSString)
    (h : parseInt t = some (ds, r)) : r.length < t.length := by
  unfold parseInt at h
  split at h
  · simp at h
  · rename_i c cs
    split at h
    · simp only [Option.some.injEq, Prod.mk.injEq] at h
      rw [← h.2]; simp
    · split at h
      · rename_i hd
        simp only [Option.some.injEq] at h
        have h2 : (takeDigits (c :: cs)).2 = r := by rw [h]
        simp only [takeDigits, hd, if_true] at h2
        have := takeDigits_length cs
        rw [← h2]; simp only [List.length_cons]; omega
      · simp at h

theorem parseFrac_length (t : JSString) : (parseFrac t).2.length ≤ t.length := by
  unfold parseFrac
  split
  · simp
  · rename_i c cs
    split
    · split
      · exact Nat.le_refl _
      · rename_i d ds rest hd
        have := takeDigits_length cs
        rw [hd] at this
        simp only [List.length_cons] at this ⊢; omega
    · exact Nat.le_refl _

theorem parseExpDigits_length (neg : Bool) (cs orig : JSString) (h : cs.length ≤ orig.length) :
    (parseExpDigits neg cs orig).2.length ≤ orig.length := by
  unfold parseExpDigits
  split
  · exact Nat.le_refl _
  · rename_i d ds rest hd
    have := takeDigits_length cs
    rw [hd] at this
    simp only at this ⊢; omega

theorem parseExp_length (t : JSString) : (parseExp t).2.length ≤ t.length := by
  unfold parseExp
  split
  · simp
  · rename_i c cs
    split
    · split
      · exact Nat.le_refl _
      · rename_i s cs1
        split
        · exact parseExpDigits_length _ _ _ (by simp only [List.length_cons]; omega)
        · split
          · exact parseExpDigits_length _ _ _ (by simp only [List.length_cons]; omega)
          · exact parseExpDigits_length _ _ _ (by simp only [List.length_cons]; omega)
    · exact Nat.le_refl _

theorem parseUnsigned_length (neg : Bool) (t : JSString) (v : JSValue) (r : JSString)
    (h : parseUnsigned neg t = some (v, r)) : r.length < t.length := by
  unfold parseUnsigned at h
  split at h
  · simp at h
  · rename_i ints cs1 hint
    simp only [Option.some.injEq, Prod.mk.injEq] at h
    have h1 := parseInt_length t ints cs1 hint
    have h2 := parseFrac_length cs1
    have h3 := parseExp_length (parseFrac cs1).2
    rw [← h.2]; omega

theorem parseNumber_length (t : JSString) (v : JSValue) (r : JSString)
    (h : parseNumber t = some (v, r)) : r.length < t.length := by
  unfold parseNumber at h
  split at h
  · simp at h
  · rename_i c cs
    split at h
    · have := parseUnsigned_length _ _ _ _ h
      simp only [List.length_cons]; omega
    · exact parseUnsigned_length _ _ _ _ h

theorem stripLiteral_length (p t r : JSString) (h : stripLiteral p t = some r) :
    r.length ≤ t.length := by
  induction p generalizing t with
  | nil => simp [stripLiteral] at h; rw [h]
  | cons a ps ih =>
    cases t with
    | nil => simp [stripLiteral] at h
    | cons c cs =>
      simp only [stripLiteral] at h
      split at h
      · have := ih cs h
        simp only [List.length_cons]; omega
      · simp at h

theorem map_pair_length (o : Option JSString) (w v : JSValue) (r : JSString) (n : Nat)
    (ho : ∀ rest, o = some rest → rest.length ≤ n)
    (h : o.map (fun rest => (w, rest)) = some (v, r)) : r.length ≤ n := by
  cases o with
  | none => simp at h
  | some rest =>
    simp only [Option.map_some', Option.some.injEq, Prod.mk.injEq] at h
    rw [← h.2]; exact ho rest rfl

theorem parse_length (f : Nat) :
    (∀ t v r, parseValue f t = some (v, r) → r.length < t.length) ∧
    (∀ t acc v r, parseElements f t acc = some (v, r) → r.length < t.length) ∧
    (∀ t acc v r, parseMembers f t acc = some (v, r) → r.length < t.length) := by
  induction f with
  | zero =>
    refine ⟨?_, ?_, ?_⟩
    · intro t v r h; simp [parseValue] at h
    · intro t acc v r h; simp [parseElements] at h
    · intro t acc v r h; simp [parseMembers] at h
  | succ f ih =>
    obtain ⟨ihV, ihE, ihM⟩ := ih
    refine ⟨?_, ?_, ?_⟩
    · intro t v r h
      rw [parseValue] at h
      have hsk := skipWhitespace_length t
      split at h
      · simp at h
      · rename_i c cs hc
        rw [hc] at hsk
        simp only [List.length_cons] at hsk
        split at h
        · split at h
          · rename_i s rest hs
            simp only [Option.some.injEq, Prod.mk.injEq] at h
            have := parseStringBody_length _ _ _ hs
            rw [← h.2]; omega
          · simp at h
        · split at h
          · have hsk2 := skipWhitespace_length cs
            split at h
            · simp at h
            · rename_i d ds hd
              rw [hd] at hsk2
              simp only [List.length_cons] at hsk2
              split at h
              · simp only [Option.some.injEq, Prod.mk.injEq] at h
                rw [← h.2]; omega
              · have := ihE _ _ _ _ h
                simp only [List.length_cons] at this; omega
          · split at h
            · have hsk2 := skipWhitespace_length cs
              split at h
              · simp at h
              · rename_i d ds hd
                rw [hd] at hsk2
                simp only [List.length_cons] at hsk2
                split at h
                · simp only [Option.some.injEq, Prod.mk.injEq] at h
                  rw [← h.2]; omega
                · have := ihM _ _ _ _ h
                  simp only [List.length_cons] at this; omega
            · split at h
              · have := map_pair_length _ _ _ _ cs.length
                  (fun rest hr => stripLiteral_length _ _ _ hr) h
                omega
              · split at h
                · have := map_pair_length _ _ _ _ cs.length
                    (fun rest hr => stripLiteral_length _ _ _ hr) h
                  omega
                · split at h
                  · have := map_pair_length _ _ _ _ cs.length
                      (fun rest hr => stripLiteral_length _ _ _ hr) h
                    omega
                  · have := parseNumber_length _ _ _ h
                    simp only [List.length_cons] at this; omega
    · intro t acc v r h
      rw [parseElements] at h
      split at h
      · simp at h
      · rename_i w rest hw
        have h1 := ihV _ _ _ hw
        have hsk := skipWhitespace_length rest
        split at h
        · simp at h
        · rename_i c cs hc
          rw [hc] at hsk
          simp only [List.length_cons] at hsk
          split at h
          · have := ihE _ _ _ _ h
            omega
          · split at h
            · simp only [Option.some.injEq, Prod.mk.injEq] at h
              rw [← h.2]; omega
            · simp at h
    · intro t acc v r h
      rw [parseMembers] at h
      have hsk := skipWhitespace_length t
      split at h
      · simp at h
      · rename_i q cs0 hq
        rw [hq] at hsk
        simp only [List.length_cons] at hsk
        split at h
        · split at h
          · simp at h
          · rename_i key rest0 hkey
            have h0 := parseStringBody_length _ _ _ hkey
            have hsk0 := skipWhitespace_length rest0
            split at h
            · simp at h
            · rename_i colon rest1 hcol
              rw [hcol] at hsk0
              simp only [List.length_cons] at hsk0
              split at h
              · split at h
                · simp at h
                · rename_i w rest hw
                  have h1 := ihV _ _ _ hw
                  have hsk1 := skipWhitespace_length rest
                  split at h
                  · simp at h
                  · rename_i c cs hc
                    rw [hc] at hsk1
                    simp only [List.length_cons] at hsk1
                    split at h
                    · have := ihM _ _ _ _ h
                      omega
                    · split at h
                      · simp only [Option.some.injEq, Prod.mk.injEq] at h
                        rw [← h.2]; omega
                      · simp at h
              · simp at h
        · simp at h

theorem parse_fuel (f : Nat) : ∀ g,
    (∀ t, 2 * t.length + 1 ≤ f → 2 * t.length + 1 ≤ g → parseValue f t = parseValue g t) ∧
    (∀ t acc, 2 * t.length + 2 ≤ f → 2 * t.length + 2 ≤ g →
      parseElements f t acc = parseElements g t acc) ∧
    (∀ t acc, 2 * t.length + 2 ≤ f → 2 * t.length + 2 ≤ g →
      parseMembers f t acc = parseMembers g t acc) := by
  induction f with
  | zero =>
    intro g
    refine ⟨?_, ?_, ?_⟩
    · intro t hf; omega
    · intro t acc hf; omega
    · intro t acc hf; omega
  | succ f ih =>
    intro g
    cases g with
    | zero =>
      refine ⟨?_, ?_, ?_⟩
      · intro t _ hg; omega
      · intro t acc _ hg; omega
      · intro t acc _ hg; omega
    | succ g =>
      obtain ⟨ihV, ihE, ihM⟩ := ih g
      refine ⟨?_, ?_, ?_⟩
      · intro t hf hg
        rw [parseValue, parseValue]
        have hsk := skipWhitespace_length t
        cases hc : skipWhitespace t with
        | nil => rfl
        | cons c cs =>
          rw [hc] at hsk
          simp only [List.length_cons] at hsk
          have hsk2 := skipWhitespace_length cs
          dsimp only
          cases hd : skipWhitespace cs with
          | nil => rfl
          | cons d ds =>
            rw [hd] at hsk2
            simp only [List.length_cons] at hsk2
            have hE := ihE (d :: ds) [] (by simp only [List.length_cons]; omega)
              (by simp only [List.length_cons]; omega)
            have hM := ihM (d :: ds) [] (by simp only [List.length_cons]; omega)
              (by simp only [List.length_cons]; omega)
            simp only [hE, hM]
      · intro t acc hf hg
        rw [parseElements, parseElements, ihV t (by omega) (by omega)]
        cases hv : parseValue g t with
        | none => rfl
        | some p =>
          obtain ⟨v, rest⟩ := p
          dsimp only
          have h1 := (parse_length g).1 _ _ _ hv
          have hsk := skipWhitespace_length rest
          cases hc : skipWhitespace rest with
          | nil => rfl
          | cons c cs =>
            rw [hc] at hsk
            simp only [List.length_cons] at hsk
            dsimp only
            simp only [ihE cs (acc ++ [v]) (by omega) (by omega)]
      · intro t acc hf hg
        rw [parseMembers, parseMembers]
        have hsk := skipWhitespace_length t
        cases hq : skipWhitespace t with
        | nil => rfl
        | cons q cs0 =>
          rw [hq] at hsk
          simp only [List.length_cons] at hsk
          dsimp only
          cases hkey : parseStringBody cs0 with
          | none => rfl
          | some p =>
            obtain ⟨key, rest0⟩ := p
            dsimp only
            have h0 := parseStringBody_length _ _ _ hkey
            have hsk0 := skipWhitespace_length rest0
            cases hcol : skipWhitespace rest0 with
            | nil => rfl
            | cons colon rest1 =>
              rw [hcol] at hsk0
              simp only [List.length_cons] at hsk0
              dsimp only
              simp only [ihV rest1 (by omega) (by omega)]
              cases hv : parseValue g rest1 with
              | none => rfl
              | some p2 =>
                obtain ⟨v, rest⟩ := p2
                dsimp only
                have h1 := (parse_length g).1 _ _ _ hv
                have hsk1 := skipWhitespace_length rest
                cases hc : skipWhitespace rest with
                | nil => rfl
                | cons c cs =>
                  rw [hc] at hsk1
                  simp only [List.length_cons] at hsk1
                  dsimp only
                  simp only [ihM cs (acc ++ [(key, v)]) (by omega) (by omega)]

/-- The bound `parse` passes is enough: any larger bound gives the same
result, so no text is rejected for lack of recursion depth. -/
theorem parseValue_fuel_irrelevant (t : JSString) (g : Nat) (h : 2 * t.length + 2 ≤ g) :
    parseValue g t = parseValue (2 * t.length + 2) t :=
  ((parse_fuel g (2 * t.length + 2)).1 t (by omega) (by omega))

end JSON

/-! ## The properties -/

/-- C1. If `hashPass(p)`, having drawn the salt `s`, resolves to `{hash, salt}`,
then decoding the hex salt gives back `s`, `pbkdf2` with the same parameters
(100000, 16, sha256) gives the bytes that the hex hash decodes to, and
`checkPass(p, hash, salt)` makes that one `pbkdf2` call and resolves `true`. -/
theorem hashPass_then_checkPass (host : Host) (p : JSString) (s : Bytes) (r : HashResult)
    (u : Option JSError)
    (h : (hashPass host p (.ok s)).completion = .returned ⟨.fulfilled r, u⟩) :
    fromHex r.salt = s ∧
    host.pbkdf2 p (fromHex r.salt) 100000 16 (lit "sha256") = .ok (fromHex r.hash) ∧
    checkPass host p (.string r.hash) (.string r.salt) =
      ⟨[.pbkdf2 p s 100000 16 (lit "sha256")], .returned ⟨.fulfilled true, none⟩⟩ := by
  obtain ⟨key, hk, rfl, -⟩ := hashPass_fulfilled host p s r u h
  have hk2 : host.pbkdf2 p (fromHex (toStringHex s)) 100000 16 (lit "sha256") = .ok key := by
    rw [fromHex_toStringHex]; exact hk
  refine ⟨fromHex_toStringHex s, ?_, ?_⟩
  · simp only [fromHex_toStringHex]; exact hk
  · rw [checkPass_ok host p _ _ key hk2]
    simp [fromHex_toStringHex]

theorem hashPass_then_checkPass_witness :
    (hashPass sampleHost (lit "pw") (.ok sampleSalt)).completion =
      .returned ⟨.fulfilled ⟨lit "01020304050607087077abababababab", lit "0102030405060708"⟩,
        none⟩ ∧
    checkPass sampleHost (lit "pw") (.string (lit "01020304050607087077abababababab"))
        (.string (lit "0102030405060708")) =
      ⟨[.pbkdf2 (lit "pw") sampleSalt 100000 16 (lit "sha256")],
        .returned ⟨.fulfilled true, none⟩⟩ :=
  ⟨by decide,
    (hashPass_then_checkPass sampleHost (lit "pw") sampleSalt
      ⟨lit "01020304050607087077abababababab", lit "0102030405060708"⟩ none (by decide)).2.2⟩

/-- C2. For every secret, account and initial store, once
`storePass(secret, account)` has resolved, `checkAccountPass(secret, account)`
on the store it left reads the key back, calls `pbkdf2` once with the drawn
salt and resolves `true`. -/
theorem storePass_then_checkAccountPass (host : Host) (st : Store) (secret account : JSString)
    (drawn : Except JSError Bytes) (u : Option JSError)
    (h : (storePass host st secret account drawn).1.completion =
      .returned ⟨.fulfilled (), u⟩) :
    ∃ s, drawn = .ok s ∧
      checkAccountPass host (storePass host st secret account drawn).2 secret account =
        ⟨[.getItem (passwordKey account), .pbkdf2 secret s 100000 16 (lit "sha256")],
          .returned ⟨.fulfilled true, none⟩⟩ := by
  obtain ⟨s, key, rfl, hk, hst⟩ := storePass_fulfilled host st secret account drawn u h
  refine ⟨s, rfl, ?_⟩
  have hk2 : host.pbkdf2 secret (fromHex (toStringHex s)) 100000 16 (lit "sha256") = .ok key := by
    rw [fromHex_toStringHex]; exact hk
  rw [checkAccountPass_stored host _ secret account key s (by rw [hst, setItem_same]),
    checkPass_ok host secret _ _ key hk2]
  simp [fromHex_toStringHex]

theorem storePass_then_checkAccountPass_witness :
    (storePass sampleHost emptyStore (lit "pw") (lit "alice") (.ok sampleSalt)).1.completion =
      .returned ⟨.fulfilled (), none⟩ ∧
    ∃ s, (Except.ok sampleSalt : Except JSError Bytes) = .ok s ∧
      checkAccountPass sampleHost
          (storePass sampleHost emptyStore (lit "pw") (lit "alice") (.ok sampleSalt)).2
          (lit "pw") (lit "alice") =
        ⟨[.getItem (passwordKey (lit "alice")), .pbkdf2 (lit "pw") s 100000 16 (lit "sha256")],
          .returned ⟨.fulfilled true, none⟩⟩ :=
  ⟨by decide,
    storePass_then_checkAccountPass sampleHost emptyStore (lit "pw") (lit "alice")
      (.ok sampleSalt) none (by decide)⟩

/-- C3 (the code at the failing input). When `pbkdf2` hands an error to the
callback, `hashPass` and `checkPass` call `reject` and then go on into the
success path, where reading a method of the missing key raises a `TypeError`
out of the callback: the promise is rejected and a second exception is raised. -/
theorem error_path_runs_success_path :
    hashPassCallback sampleSalt (some (.primitive 1)) none =
      [.reject (.primitive 1), .threw .TypeError] ∧
    checkPassCallback failingHost (.string (lit "00")) (some (.primitive 1)) none =
      [.reject (.primitive 1), .threw .TypeError] ∧
    (hashPass failingHost (lit "pw") (.ok sampleSalt)).completion =
      .returned ⟨.rejected (.primitive 1), some .TypeError⟩ ∧
    (checkPass failingHost (lit "pw") (.string (lit "00"))
        (.string (lit "0102030405060708"))).completion =
      .returned ⟨.rejected (.primitive 1), some .TypeError⟩ := by
  decide

/-- C4. For every secret, digestHex and saltHex for which `pbkdf2` succeeds with
key `key`, `checkPass(secret, digestHex, saltHex)` makes that one `pbkdf2` call
(salt decoded as `new Buffer(saltHex, "hex")` decodes it, 100000, 16, sha256)
and its promise is fulfilled with `true` exactly when `key` equals the bytes
`new Buffer(digestHex, "hex")` decodes and with `false` otherwise; it is not
rejected and no exception is raised. -/
theorem checkPass_resolves_comparison (host : Host) (secret digestHex saltHex : JSString)
    (key : Bytes)
    (h : host.pbkdf2 secret (fromHex saltHex) 100000 16 (lit "sha256") = .ok key) :
    checkPass host secret (.string digestHex) (.string saltHex) =
      ⟨[.pbkdf2 secret (fromHex saltHex) 100000 16 (lit "sha256")],
        .returned ⟨.fulfilled (decide (key = fromHex digestHex)), none⟩⟩ :=
  checkPass_ok host secret digestHex saltHex key h

theorem checkPass_resolves_comparison_witness :
    sampleHost.pbkdf2 (lit "pw") (fromHex [353, 354]) 100000 16 (lit "sha256") =
      .ok [171, 112, 119, 171, 171, 171, 171, 171, 171, 171, 171, 171, 171, 171, 171, 171] ∧
    checkPass sampleHost (lit "pw") (.string (lit "AB7077abababababababababababABAB"))
        (.string [353, 354]) =
      ⟨[.pbkdf2 (lit "pw") [171] 100000 16 (lit "sha256")],
        .returned ⟨.fulfilled true, none⟩⟩ ∧
    checkPass sampleHost (lit "pw") (.string (lit "ab70")) (.string [353, 354]) =
      ⟨[.pbkdf2 (lit "pw") [171] 100000 16 (lit "sha256")],
        .returned ⟨.fulfilled false, none⟩⟩ :=
  ⟨rfl,
    checkPass_resolves_comparison sampleHost (lit "pw")
      (lit "AB7077abababababababababababABAB") [353, 354]
      [171, 112, 119, 171, 171, 171, 171, 171, 171, 171, 171, 171, 171, 171, 171, 171] rfl,
    checkPass_resolves_comparison sampleHost (lit "pw") (lit "ab70") [353, 354]
      [171, 112, 119, 171, 171, 171, 171, 171, 171, 171, 171, 171, 171, 171, 171, 171] rfl⟩

/-- C5 (counterexample). The hash of this run holds the letter `a` at index 20;
flipping bit 5 of that character gives `A`, which decodes to the same byte, and
flipping bit 8 of the first character gives the code unit 304, whose low byte
is still the digit `0`: in both cases `checkPass` on the altered hash resolves
`true`. -/
theorem flipped_case_bit_still_verifies :
    (hashPass sampleHost (lit "pw") (.ok sampleSalt)).completion =
      .returned ⟨.fulfilled ⟨lit "01020304050607087077abababababab", lit "0102030405060708"⟩,
        none⟩ ∧
    (lit "01020304050607087077abababababab").set 20
        (flipBit ((lit "01020304050607087077abababababab").getD 20 0) 5) =
      lit "01020304050607087077Abababababab" ∧
    (checkPass sampleHost (lit "pw") (.string (lit "01020304050607087077Abababababab"))
        (.string (lit "0102030405060708"))).completion =
      .returned ⟨.fulfilled true, none⟩ ∧
    (lit "01020304050607087077abababababab").set 0
        (flipBit ((lit "01020304050607087077abababababab").getD 0 0) 8) =
      304 :: lit "1020304050607087077abababababab" ∧
    (checkPass sampleHost (lit "pw") (.string (304 :: lit "1020304050607087077abababababab"))
        (.string (lit "0102030405060708"))).completion =
      .returned ⟨.fulfilled true, none⟩ := by
  decide

/-- C5 (amended). If `hashPass(p)` resolves to `{hash, salt}` and `hash2` is
`hash` with one of the 16 bits of one of its characters flipped, then
`checkPass(p, hash2, salt)` resolves `false` when the bit is one of the low
eight other than bit 5 (value 32) of a letter `a`-`f`, and resolves `true` in
the other cases: bit 5 of a letter gives the same letter in upper case, and the
bits 8 to 15 are not read by the hex decoder. -/
theorem flipped_digest_rejected (host : Host) (p : JSString) (s : Bytes) (r : HashResult)
    (u : Option JSError) (i k : Nat)
    (h : (hashPass host p (.ok s)).completion = .returned ⟨.fulfilled r, u⟩)
    (hi : i < r.hash.length) (hk : k < 16) :
    checkPass host p (.string (r.hash.set i (flipBit (r.hash.getD i 0) k))) (.string r.salt) =
      ⟨[.pbkdf2 p s 100000 16 (lit "sha256")],
        .returned ⟨.fulfilled (decide ((k = 5 ∧ 97 ≤ r.hash.getD i 0) ∨ 8 ≤ k)), none⟩⟩ := by
  obtain ⟨key, hkey, rfl, -⟩ := hashPass_fulfilled host p s r u h
  have hk2 : host.pbkdf2 p (fromHex (toStringHex s)) 100000 16 (lit "sha256") = .ok key := by
    rw [fromHex_toStringHex]; exact hkey
  rw [checkPass_ok host p _ _ key hk2]
  simp only [fromHex_toStringHex]
  by_cases hx : (k = 5 ∧ 97 ≤ (toStringHex key).getD i 0) ∨ 8 ≤ k
  · have he := fromHex_flip_same key i k hi hk hx
    rw [he, decide_eq_true hx, decide_eq_true rfl]
  · have hne := fromHex_flip_ne key i k hi hk hx
    have hd : decide (key = fromHex ((toStringHex key).set i
        (flipBit ((toStringHex key).getD i 0) k))) = false :=
      decide_eq_false (fun e => hne e.symm)
    rw [hd, decide_eq_false hx]

theorem flipped_digest_rejected_witness :
    (hashPass sampleHost (lit "pw") (.ok sampleSalt)).completion =
      .returned ⟨.fulfilled ⟨lit "01020304050607087077abababababab", lit "0102030405060708"⟩,
        none⟩ ∧
    checkPass sampleHost (lit "pw")
        (.string ((lit "01020304050607087077abababababab").set 20
          (flipBit ((lit "01020304050607087077abababababab").getD 20 0) 0)))
        (.string (lit "0102030405060708")) =
      ⟨[.pbkdf2 (lit "pw") sampleSalt 100000 16 (lit "sha256")],
        .returned ⟨.fulfilled false, none⟩⟩ ∧
    checkPass sampleHost (lit "pw")
        (.string ((lit "01020304050607087077abababababab").set 20
          (flipBit ((lit "01020304050607087077abababababab").getD 20 0) 9)))
        (.string (lit "0102030405060708")) =
      ⟨[.pbkdf2 (lit "pw") sampleSalt 100000 16 (lit "sha256")],
        .returned ⟨.fulfilled true, none⟩⟩ :=
  ⟨by decide,
    flipped_digest_rejected sampleHost (lit "pw") sampleSalt
      ⟨lit "01020304050607087077abababababab", lit "0102030405060708"⟩ none 20 0
      (by decide) (by decide) (by decide),
    flipped_digest_rejected sampleHost (lit "pw") sampleSalt
      ⟨lit "01020304050607087077abababababab", lit "0102030405060708"⟩ none 20 9
      (by decide) (by decide) (by decide)⟩

/-- C6. For every account under whose key the store holds no value,
`hasAccountPass(account)` returns `false` and, for every secret,
`checkAccountPass(secret, account)` only reads the store (no `pbkdf2` call) and
returns a promise fulfilled with `false`, nothing being thrown. -/
theorem absent_account_is_false (host : Host) (st : Store) (account : JSString)
    (h : st (passwordKey account) = none) :
    hasAccountPass st account = ⟨[.getItem (passwordKey account)], .returned false⟩ ∧
    ∀ secret, checkAccountPass host st secret account =
      ⟨[.getItem (passwordKey account)], .returned ⟨.fulfilled false, none⟩⟩ := by
  constructor
  · simp [hasAccountPass, h]
  · intro secret
    simp [checkAccountPass, h, toStringOrNull, parse_null, toBoolean]

theorem absent_account_is_false_witness :
    emptyStore (passwordKey (lit "alice")) = none ∧
    hasAccountPass emptyStore (lit "alice") =
      ⟨[.getItem (passwordKey (lit "alice"))], .returned false⟩ ∧
    ∀ secret, checkAccountPass sampleHost emptyStore secret (lit "alice") =
      ⟨[.getItem (passwordKey (lit "alice"))], .returned ⟨.fulfilled false, none⟩⟩ :=
  ⟨rfl, absent_account_is_false sampleHost emptyStore (lit "alice") rfl⟩

/-- C7. For every account and two secrets `p1`, `p2`, once
`storePass(p1, account)` and then `storePass(p2, account)` have both resolved,
the store is the initial one with exactly the second record written under the
account key, `checkAccountPass(p2, account)` resolves `true`, and
`checkAccountPass(p1, account)` resolves `true` only if `pbkdf2` of `p1` with the
second salt is the second digest. -/
theorem storePass_twice_keeps_second (host : Host) (st : Store) (account p1 p2 : JSString)
    (drawn1 drawn2 : Except JSError Bytes) (u1 u2 : Option JSError)
    (h1 : (storePass host st p1 account drawn1).1.completion = .returned ⟨.fulfilled (), u1⟩)
    (h2 : (storePass host (storePass host st p1 account drawn1).2 p2 account drawn2).1.completion
      = .returned ⟨.fulfilled (), u2⟩) :
    ∃ s2 key2, drawn2 = .ok s2 ∧ host.pbkdf2 p2 s2 100000 16 (lit "sha256") = .ok key2 ∧
      (storePass host (storePass host st p1 account drawn1).2 p2 account drawn2).2 =
        st.setItem (passwordKey account) (JSON.stringify ⟨toStringHex key2, toStringHex s2⟩) ∧
      (checkAccountPass host
          (storePass host (storePass host st p1 account drawn1).2 p2 account drawn2).2
          p2 account).completion = .returned ⟨.fulfilled true, none⟩ ∧
      ∀ u, (checkAccountPass host
          (storePass host (storePass host st p1 account drawn1).2 p2 account drawn2).2
          p1 account).completion = .returned ⟨.fulfilled true, u⟩ →
        host.pbkdf2 p1 s2 100000 16 (lit "sha256") = .ok key2 := by
  obtain ⟨s1, key1, -, -, hst1⟩ := storePass_fulfilled host st p1 account drawn1 u1 h1
  obtain ⟨s2, key2, rfl, hk2, hst2⟩ := storePass_fulfilled host _ p2 account drawn2 u2 h2
  have hget : (storePass host (storePass host st p1 account drawn1).2 p2 account (.ok s2)).2
      (passwordKey account) = some (JSON.stringify ⟨toStringHex key2, toStringHex s2⟩) := by
    rw [hst2, setItem_same]
  have hk2b : host.pbkdf2 p2 (fromHex (toStringHex s2)) 100000 16 (lit "sha256") = .ok key2 := by
    rw [fromHex_toStringHex]; exact hk2
  refine ⟨s2, key2, rfl, hk2, ?_, ?_, ?_⟩
  · rw [hst2, hst1]
    funext k
    by_cases hkey : k = passwordKey account <;> simp [Store.setItem, hkey]
  · rw [checkAccountPass_stored host _ p2 account key2 s2 hget,
      checkPass_ok host p2 _ _ key2 hk2b]
    simp [fromHex_toStringHex]
  · intro u hu
    rw [checkAccountPass_stored host _ p1 account key2 s2 hget] at hu
    cases hp : host.pbkdf2 p1 (fromHex (toStringHex s2)) 100000 16 (lit "sha256") with
    | error e =>
      rw [checkPass_error host p1 _ _ e hp] at hu
      simp at hu
    | ok k =>
      rw [checkPass_ok host p1 _ _ k hp] at hu
      simp only [fromHex_toStringHex, Completion.returned.injEq, Promise.mk.injEq,
        PromiseState.fulfilled.injEq, decide_eq_true_eq] at hu
      rw [fromHex_toStringHex] at hp
      rw [hp, hu.1]

theorem storePass_twice_keeps_second_witness :
    (storePass sampleHost emptyStore (lit "one") (lit "alice") (.ok sampleSalt)).1.completion =
      .returned ⟨.fulfilled (), none⟩ ∧
    ∃ s2 key2, (Except.ok [8, 7, 6, 5, 4, 3, 2, 1] : Except JSError Bytes) = .ok s2 ∧
      sampleHost.pbkdf2 (lit "two") s2 100000 16 (lit "sha256") = .ok key2 ∧
      (storePass sampleHost
          (storePass sampleHost emptyStore (lit "one") (lit "alice") (.ok sampleSalt)).2
          (lit "two") (lit "alice") (.ok [8, 7, 6, 5, 4, 3, 2, 1])).2 =
        emptyStore.setItem (passwordKey (lit "alice"))
          (JSON.stringify ⟨toStringHex key2, toStringHex s2⟩) ∧
      (checkAccountPass sampleHost
          (storePass sampleHost
            (storePass sampleHost emptyStore (lit "one") (lit "alice") (.ok sampleSalt)).2
            (lit "two") (lit "alice") (.ok [8, 7, 6, 5, 4, 3, 2, 1])).2
          (lit "two") (lit "alice")).completion = .returned ⟨.fulfilled true, none⟩ ∧
      ∀ u, (checkAccountPass sampleHost
          (storePass sampleHost
            (storePass sampleHost emptyStore (lit "one") (lit "alice") (.ok sampleSalt)).2
            (lit "two") (lit "alice") (.ok [8, 7, 6, 5, 4, 3, 2, 1])).2
          (lit "one") (lit "alice")).completion = .returned ⟨.fulfilled true, u⟩ →
        sampleHost.pbkdf2 (lit "one") s2 100000 16 (lit "sha256") = .ok key2 :=
  ⟨by decide,
    storePass_twice_keeps_second sampleHost emptyStore (lit "alice") (lit "one") (lit "two")
      (.ok sampleSalt) (.ok [8, 7, 6, 5, 4, 3, 2, 1]) none none (by decide) (by decide)⟩

/-- C8 (counterexample). With the text `{` stored under the account key,
`checkAccountPass` raises the `SyntaxError` of `JSON.parse` to its caller
instead of returning a promise. With a record whose `hash` is the number 5,
`pbkdf2` succeeds and building the hash buffer fails inside the callback: the
`TypeError` escapes the callback and the promise is never settled. -/
theorem failures_not_delivered_as_rejections :
    checkAccountPass sampleHost (emptyStore.setItem (passwordKey (lit "alice")) (lit "\x7b"))
        (lit "pw") (lit "alice") =
      ⟨[.getItem (passwordKey (lit "alice"))], .threw .SyntaxError⟩ ∧
    checkAccountPass sampleHost
        (emptyStore.setItem (passwordKey (lit "alice"))
          (lit "\x7b\"hash\":5,\"salt\":\"00\"\x7d"))
        (lit "pw") (lit "alice") =
      ⟨[.getItem (passwordKey (lit "alice")), .pbkdf2 (lit "pw") [0] 100000 16 (lit "sha256")],
        .returned ⟨.pending, some .TypeError⟩⟩ := by
  decide

/-- C8 (amended). For every secret, account and store, `checkAccountPass`
raises a synchronous exception exactly when `JSON.parse` fails on what the
store holds under the account key, and the exception is that `SyntaxError`; in
every other case it returns a promise. That promise is fulfilled with `false`
for a falsy record. For a truthy record, a failure to build the salt buffer and
an error reported by `pbkdf2` are delivered as a rejection of the promise with
that error; a failure to build the hash buffer, which happens inside the
callback after `pbkdf2` succeeded, is not delivered: the exception escapes the
callback and the promise stays pending; with both buffers built and `pbkdf2`
successful the promise is fulfilled with the comparison. -/
theorem checkAccountPass_failure_delivery (host : Host) (st : Store)
    (secret account : JSString) :
    ((∃ e, (checkAccountPass host st secret account).completion = .threw e) ↔
      JSON.parse (toStringOrNull (st (passwordKey account))) = .error .SyntaxError) ∧
    ((checkAccountPass host st secret account).completion = .threw .SyntaxError ↔
      JSON.parse (toStringOrNull (st (passwordKey account))) = .error .SyntaxError) ∧
    ∀ pdata, JSON.parse (toStringOrNull (st (passwordKey account))) = .ok pdata →
      ∃ q, (checkAccountPass host st secret account).completion = .returned q ∧
        (toBoolean pdata = false → q = ⟨.fulfilled false, none⟩) ∧
        (toBoolean pdata = true →
          (∀ e, newBuffer host (pdata.get (lit "salt")) = .error e →
            q = ⟨.rejected e, none⟩) ∧
          (∀ saltBytes, newBuffer host (pdata.get (lit "salt")) = .ok saltBytes →
            (∀ e, host.pbkdf2 secret saltBytes 100000 16 (lit "sha256") = .error e →
              q.state = .rejected e) ∧
            (∀ key, host.pbkdf2 secret saltBytes 100000 16 (lit "sha256") = .ok key →
              (∀ e, newBuffer host (pdata.get (lit "hash")) = .error e →
                q = ⟨.pending, some e⟩) ∧
              (∀ expected, newBuffer host (pdata.get (lit "hash")) = .ok expected →
                q = ⟨.fulfilled (decide (key = expected)), none⟩)))) := by
  have hparse : ∀ text e, JSON.parse text = .error e → e = .SyntaxError := by
    intro text e he
    unfold JSON.parse at he
    split at he
    · simp at he; exact he.symm
    · split at he
      · simp at he
      · simp at he; exact he.symm
  unfold checkAccountPass
  cases hp : JSON.parse (toStringOrNull (st (passwordKey account))) with
  | error e =>
    have := hparse _ _ hp
    subst this
    simp
  | ok pdata =>
    obtain ⟨q, hq⟩ := checkPass_returns host secret (pdata.get (lit "hash"))
      (pdata.get (lit "salt"))
    refine ⟨?_, ?_, ?_⟩
    · by_cases hb : toBoolean pdata = true <;> simp [hb, hq]
    · by_cases hb : toBoolean pdata = true <;> simp [hb, hq]
    · intro pdata2 h2
      simp only [Except.ok.injEq] at h2
      subst h2
      by_cases hb : toBoolean pdata = true
      · simp only [hb, if_true]
        refine ⟨q, hq, fun h => by simp at h, fun _ => ⟨?_, ?_⟩⟩
        · intro e he
          simp only [checkPass, he, Promise.ofEvents, settle, uncaughtOf,
            Completion.returned.injEq] at hq
          exact hq.symm
        · intro saltBytes hs
          refine ⟨?_, ?_⟩
          · intro e he
            simp only [checkPass, hs, he, callbackArgs, checkPassCallback, Promise.ofEvents,
              List.singleton_append, settle, Completion.returned.injEq] at hq
            rw [← hq]
          · intro key hk
            refine ⟨?_, ?_⟩
            · intro e he
              simp only [checkPass, hs, hk, he, callbackArgs, checkPassCallback,
                Promise.ofEvents, List.nil_append, settle, uncaughtOf,
                Completion.returned.injEq] at hq
              exact hq.symm
            · intro expected he
              simp only [checkPass, hs, hk, he, callbackArgs, checkPassCallback,
                Promise.ofEvents, List.nil_append, settle, uncaughtOf,
                Completion.returned.injEq] at hq
              exact hq.symm
      · have hb2 : toBoolean pdata = false := by simpa using hb
        simp only [hb2]
        exact ⟨_, rfl, fun _ => rfl, fun h => by simp at h⟩

theorem checkAccountPass_failure_delivery_witness :
    ∃ q, (checkAccountPass failingHost
        (emptyStore.setItem (passwordKey (lit "alice"))
          (JSON.stringify ⟨toStringHex [171], toStringHex sampleSalt⟩))
        (lit "pw") (lit "alice")).completion = .returned q ∧
      q.state = .rejected (.primitive 1) := by
  have hp : JSON.parse (toStringOrNull ((emptyStore.setItem (passwordKey (lit "alice"))
      (JSON.stringify ⟨toStringHex [171], toStringHex sampleSalt⟩))
      (passwordKey (lit "alice")))) =
      .ok (.object [([104, 97, 115, 104], .string (toStringHex [171])),
        ([115, 97, 108, 116], .string (toStringHex sampleSalt))]) := by
    rw [setItem_same]
    exact parse_stringify _ _ (toStringHex_plain _) (toStringHex_plain _)
  obtain ⟨q, hq, -, ht⟩ := (checkAccountPass_failure_delivery failingHost
    (emptyStore.setItem (passwordKey (lit "alice"))
      (JSON.stringify ⟨toStringHex [171], toStringHex sampleSalt⟩))
    (lit "pw") (lit "alice")).2.2 _ hp
  exact ⟨q, hq, ((ht rfl).2 sampleSalt rfl).1 (.primitive 1) rfl⟩

/-- C9 (counterexample). With the empty string stored under the account key,
the store holds a value there and `hasAccountPass` returns `false`. -/
theorem empty_value_is_not_a_password :
    (emptyStore.setItem (passwordKey (lit "alice")) []) (passwordKey (lit "alice")) = some [] ∧
    hasAccountPass (emptyStore.setItem (passwordKey (lit "alice")) []) (lit "alice") =
      ⟨[.getItem (passwordKey (lit "alice"))], .returned false⟩ := by
  decide

/-- C9 (amended). For every account and store, `hasAccountPass(account)` only
reads the account key (no write, no `pbkdf2` call) and returns `true` if and
only if the store holds a non-empty string under that key, `false` otherwise. -/
theorem hasAccountPass_iff_nonempty (st : Store) (account : JSString) :
    (hasAccountPass st account).effects = [.getItem (passwordKey account)] ∧
    writes (hasAccountPass st account).effects = [] ∧
    pbkdf2Calls (hasAccountPass st account).effects = [] ∧
    ((hasAccountPass st account).completion = .returned true ↔
      ∃ v, st (passwordKey account) = some v ∧ v ≠ []) ∧
    ((hasAccountPass st account).completion = .returned false ↔
      ¬ ∃ v, st (passwordKey account) = some v ∧ v ≠ []) := by
  unfold hasAccountPass
  refine ⟨rfl, rfl, rfl, ?_, ?_⟩
  · cases hs : st (passwordKey account) with
    | none => simp
    | some v => cases v <;> simp
  · cases hs : st (passwordKey account) with
    | none => simp
    | some v => cases v <;> simp

/-- C10 (counterexample). When `pbkdf2` reports an error, `storePass` performs
no write at all. -/
theorem failed_derivation_writes_nothing :
    writes (storePass failingHost emptyStore (lit "pw") (lit "alice") (.ok sampleSalt)).1.effects
      = [] ∧
    (storePass failingHost emptyStore (lit "pw") (lit "alice") (.ok sampleSalt)).1.completion =
      .returned ⟨.rejected (.primitive 1), some .TypeError⟩ := by
  decide

/-- C10 (amended). For every secret and two distinct accounts `a` and `b`,
`storePass(secret, a)` performs one write, to the key of `a`, when it resolves
and none otherwise, and leaves the value under every other key unchanged; the
keys of `a` and `b` differ, so the stored record of `b`, `hasAccountPass(b)` and
`checkAccountPass(p, b)` for every `p` are the same before and after. -/
theorem storePass_touches_only_its_key (host : Host) (st : Store) (secret a b : JSString)
    (drawn : Except JSError Bytes) (hab : a ≠ b) :
    ((∃ u v, (storePass host st secret a drawn).1.completion = .returned ⟨.fulfilled (), u⟩ ∧
          writes (storePass host st secret a drawn).1.effects = [(passwordKey a, v)]) ∨
      ((∀ u, (storePass host st secret a drawn).1.completion ≠ .returned ⟨.fulfilled (), u⟩) ∧
          writes (storePass host st secret a drawn).1.effects = [])) ∧
    (∀ k, k ≠ passwordKey a → (storePass host st secret a drawn).2 k = st k) ∧
    passwordKey b ≠ passwordKey a ∧
    (storePass host st secret a drawn).2 (passwordKey b) = st (passwordKey b) ∧
    hasAccountPass (storePass host st secret a drawn).2 b = hasAccountPass st b ∧
    ∀ p, checkAccountPass host (storePass host st secret a drawn).2 p b =
      checkAccountPass host st p b := by
  have hkey : passwordKey b ≠ passwordKey a :=
    fun e => hab (passwordKey_injective b a e).symm
  have hsame := storePass_other_key host st secret a drawn (passwordKey b) hkey
  exact ⟨storePass_writes host st secret a drawn,
    fun k hk => storePass_other_key host st secret a drawn k hk, hkey, hsame,
    hasAccountPass_congr _ _ b hsame, fun p => checkAccountPass_congr host _ _ p b hsame⟩

theorem storePass_touches_only_its_key_witness :
    lit "alice" ≠ lit "bob" ∧
    (∀ k, k ≠ passwordKey (lit "alice") →
      (storePass sampleHost emptyStore (lit "pw") (lit "alice") (.ok sampleSalt)).2 k =
        emptyStore k) ∧
    ∀ p, checkAccountPass sampleHost
        (storePass sampleHost emptyStore (lit "pw") (lit "alice") (.ok sampleSalt)).2 p
        (lit "bob") =
      checkAccountPass sampleHost emptyStore p (lit "bob") :=
  ⟨by decide,
    (storePass_touches_only_its_key sampleHost emptyStore (lit "pw") (lit "alice") (lit "bob")
      (.ok sampleSalt) (by decide)).2.1,
    (storePass_touches_only_its_key sampleHost emptyStore (lit "pw") (lit "alice") (lit "bob")
      (.ok sampleSalt) (by decide)).2.2.2.2.2⟩

end HashPass
